import Mathlib

/-!
Shallow embedding of the nacoustik acoustic-index computations:
the ACI engine of src/nacoustik/index/indices.py, the decibel
conversions of src/nacoustik/spectrum/analysis.py, and the
decibel summation of src/wavescape/utilities.py.

Machine floats are modelled by exact rationals in the ACI
aggregation (its claims are arithmetic identities) and by real
numbers for the logarithmic conversions.  The contents that
`np.empty` leaves in the one slot of `aci_f_band` that the loops
may never write are passed as an explicit parameter `g`, since the
source sums the whole buffer regardless.
-/

namespace Nacoustik

/-- Rounding used by `np.around`: round half to even, on exact rationals. -/
def roundHalfEven (q : ℚ) : ℤ :=
  if q - ⌊q⌋ < 1 / 2 then ⌊q⌋
  else if 1 / 2 < q - ⌊q⌋ then ⌊q⌋ + 1
  else if ⌊q⌋ % 2 = 0 then ⌊q⌋ else ⌊q⌋ + 1

/-- Line 19 of indices.py: `block_delta = int(np.around(block_duration / time_delta))`. -/
def block_delta (time_delta block_duration : ℚ) : ℤ :=
  roundHalfEven (block_duration / time_delta)

/-- Line 20 of indices.py: `n_blocks = int(np.floor(a.shape[2] / block_delta))`,
with `T = a.shape[2]` and `bd` the (nonnegative) block delta. -/
def n_blocks (T bd : ℕ) : ℕ :=
  (⌊(T : ℚ) / (bd : ℚ)⌋).toNat

/-- Line 21 of indices.py: `remainder = int(a.shape[2] - (block_delta * n_blocks))`. -/
def remainder (T bd : ℕ) : ℕ :=
  T - bd * n_blocks T bd

/-- Lines 26 to 34 of indices.py: the inner difference loop of a full block.
`d[t_step] = abs(a[.., t_step*(block+1)] - a[.., t_step*(block+1)+1])` for
`t_step` in `range(block_delta - 1)`, followed by `D = d.sum()`.
The argument `a` is the time slice of one (channel, frequency band) pair. -/
def blockD (a : ℕ → ℚ) (bd block : ℕ) : ℚ :=
  ∑ t ∈ Finset.range (bd - 1), |a (t * (block + 1)) - a (t * (block + 1) + 1)|

/-- Lines 35 to 37 of indices.py: the block intensity sum
`a[.., block_delta*block : block_delta*(block+1)].sum()`. -/
def blockSum (a : ℕ → ℚ) (bd block : ℕ) : ℚ :=
  ∑ i ∈ Finset.Ico (bd * block) (bd * (block + 1)), a i

/-- Lines 39 to 47 of indices.py: the remainder-branch difference loop.
`d[t_step] = abs(a[.., t_step*n_blocks + t_step] - a[.., t_step*n_blocks + t_step + 1])`
for `t_step` in `range(remainder - 1)`, followed by `D = d.sum()`. -/
def remD (a : ℕ → ℚ) (nb r : ℕ) : ℚ :=
  ∑ t ∈ Finset.range (r - 1), |a (t * nb + t) - a (t * nb + t + 1)|

/-- Sum over a Python slice `a[start:stop]` of an array of length `T`,
with Python's normalisation of negative indices and clamping into `[0, T]`,
as in `a[-(remainder + 1):-1].sum()` on line 48 to 50 of indices.py. -/
def pySliceSum (a : ℕ → ℚ) (T : ℕ) (start stop : ℤ) : ℚ :=
  ∑ i ∈ Finset.Ico
      (if start < 0 then (start + T).toNat else min start.toNat T)
      (if stop < 0 then (stop + T).toNat else min stop.toNat T), a i

/-- Lines 24 to 50 of indices.py: the per-band accumulator
`aci_f_band = np.empty(shape=(n_blocks + 1))` after both loops have run.
Slot `block < n_blocks` holds the full-block value `D / blocksum`; the final
slot holds the fractional-block value when `remainder > 1` and otherwise
keeps the contents `np.empty` left there, modelled by the parameter `g`. -/
def aci_f_band (a : ℕ → ℚ) (T bd : ℕ) (g : ℚ) : List ℚ :=
  (List.range (n_blocks T bd)).map (fun block => blockD a bd block / blockSum a bd block)
    ++ [if 1 < remainder T bd then
          remD a (n_blocks T bd) (remainder T bd) /
            pySliceSum a T (-((remainder T bd : ℤ) + 1)) (-1)
        else g]

/-- Lines 52 to 53 of indices.py: the final cell value
`aci[channel, f_band] = aci_f_band.sum() / (n_blocks + (remainder / block_delta))`. -/
def aciCell (a : ℕ → ℚ) (T bd : ℕ) (g : ℚ) : ℚ :=
  (aci_f_band a T bd g).sum / ((n_blocks T bd : ℚ) + (remainder T bd : ℚ) / (bd : ℚ))

/-- Lines 18 to 53 of indices.py, `_calculate_aci` as wrapped by `calculate_aci`:
the whole grid, one cell per (channel, f_band) pair of the input tensor `a`.
`g channel f_band` models what `np.empty` left in the final accumulator slot of
that cell.  With `block_delta ≤ 0` the source cannot produce a result (division
by zero computing `n_blocks`, or a negative allocation size), modelled as `none`. -/
def calculate_aci (T : ℕ) (a : ℕ → ℕ → ℕ → ℚ) (time_delta block_duration : ℚ)
    (g : ℕ → ℕ → ℚ) : Option (ℕ → ℕ → ℚ) :=
  if block_delta time_delta block_duration ≤ 0 then none
  else some (fun channel f_band =>
    aciCell (a channel f_band) T (block_delta time_delta block_duration).toNat
      (g channel f_band))

/-- Sample time slice with intensities 1, 2, 3, 4, ... used in concrete evaluations. -/
def sampleA (i : ℕ) : ℚ := (i : ℚ) + 1

/-- Sample time slice with alternating intensities 0, 2, 0, 2, ... . -/
def sampleB (i : ℕ) : ℚ := 2 * ((i % 2 : ℕ) : ℚ)

/-- Two-channel, one-band sample grid: channel 0 carries `sampleA`, channel 1 `sampleB`. -/
def sampleGrid (c : ℕ) (_f t : ℕ) : ℚ := if c = 0 then sampleA t else sampleB t

/-- The channel-swapped copy of `sampleGrid`. -/
def sampleGridSwapped (c : ℕ) (f t : ℕ) : ℚ := sampleGrid (1 - c) f t

theorem n_blocks_eq (T bd : ℕ) : n_blocks T bd = T / bd := by
  rw [n_blocks, Int.floor_toNat, Nat.floor_div_eq_div]

theorem remainder_eq (T bd : ℕ) : remainder T bd = T % bd := by
  rw [remainder, n_blocks_eq]
  have := Nat.div_add_mod T bd
  omega

theorem block_delta_one_two : block_delta 1 2 = 2 := by
  norm_num [block_delta, roundHalfEven]

theorem block_delta_one_one : block_delta 1 1 = 1 := by
  norm_num [block_delta, roundHalfEven]

/-- C1: for every full block `k < n_blocks` and every (channel, frequency band)
slice `a`, the within-block difference sum `D` is the sum over
`t_step < block_delta - 1` of `|a (t_step*(k+1)) - a (t_step*(k+1)+1)|`
(the stride-indexed scheme of the source, not adjacent time steps), and the value
the engine stores for that block is `D` divided by the intensity sum over the
time-step range `[block_delta*k, block_delta*(k+1))`. -/
theorem aci_full_block_value (a : ℕ → ℚ) (T bd : ℕ) (g : ℚ) (k : ℕ)
    (hk : k < n_blocks T bd) :
    (aci_f_band a T bd g).getD k 0 =
      (∑ t ∈ Finset.range (bd - 1), |a (t * (k + 1)) - a (t * (k + 1) + 1)|) /
        ∑ i ∈ Finset.Ico (bd * k) (bd * (k + 1)), a i := by
  have hlen : k < ((List.range (n_blocks T bd)).map
      (fun block => blockD a bd block / blockSum a bd block)).length := by
    simpa using hk
  rw [aci_f_band, List.getD_append _ _ _ _ hlen, List.getD_eq_getElem _ _ hlen,
    List.getElem_map, List.getElem_range]
  rfl

/-- Witness for `aci_full_block_value` at the slice `sampleA`, `T = 4`, `bd = 2`, `k = 1`. -/
theorem aci_full_block_value_witness :
    1 < n_blocks 4 2 ∧
    (aci_f_band sampleA 4 2 0).getD 1 0 =
      (∑ t ∈ Finset.range (2 - 1), |sampleA (t * (1 + 1)) - sampleA (t * (1 + 1) + 1)|) /
        ∑ i ∈ Finset.Ico (2 * 1) (2 * (1 + 1)), sampleA i :=
  ⟨by simp [n_blocks_eq], aci_full_block_value sampleA 4 2 0 1 (by simp [n_blocks_eq])⟩

/-- C3: for every tensor length `T` and durations making the derived block delta
valid (at least one time step per block), the partition satisfies
`block_delta = round(block_duration / time_delta)` (half to even, as `np.around`),
`n_blocks = floor(T / block_delta)`, `n_blocks * block_delta + remainder = T` and
`0 ≤ remainder < block_delta` — an exact partition of the time axis. -/
theorem block_partition_exact (T : ℕ) (time_delta block_duration : ℚ)
    (h : 1 ≤ block_delta time_delta block_duration) :
    block_delta time_delta block_duration = roundHalfEven (block_duration / time_delta) ∧
    n_blocks T (block_delta time_delta block_duration).toNat =
      T / (block_delta time_delta block_duration).toNat ∧
    n_blocks T (block_delta time_delta block_duration).toNat *
        (block_delta time_delta block_duration).toNat +
      remainder T (block_delta time_delta block_duration).toNat = T ∧
    remainder T (block_delta time_delta block_duration).toNat <
      (block_delta time_delta block_duration).toNat := by
  refine ⟨rfl, n_blocks_eq T _, ?_, ?_⟩
  · rw [n_blocks_eq, remainder_eq]
    exact Nat.div_add_mod' T (block_delta time_delta block_duration).toNat
  · rw [remainder_eq]
    refine Nat.mod_lt T ?_
    omega

/-- Witness for `block_partition_exact` at `T = 5`, `time_delta = 1`, `block_duration = 2`. -/
theorem block_partition_exact_witness :
    (1 : ℤ) ≤ block_delta 1 2 ∧
    (block_delta 1 2 = roundHalfEven (2 / 1) ∧
     n_blocks 5 (block_delta 1 2).toNat = 5 / (block_delta 1 2).toNat ∧
     n_blocks 5 (block_delta 1 2).toNat * (block_delta 1 2).toNat +
       remainder 5 (block_delta 1 2).toNat = 5 ∧
     remainder 5 (block_delta 1 2).toNat < (block_delta 1 2).toNat) :=
  ⟨by rw [block_delta_one_two]; decide,
   block_partition_exact 5 1 2 (by rw [block_delta_one_two]; decide)⟩

/-- C6: the final accumulator slot holds, when `remainder > 1`, the analogous
difference sum over `remainder - 1` steps divided by the intensity sum of the
Python slice `-(remainder+1):-1`; that slice sums the last `remainder` samples
after the very last one is excluded, i.e. indices `[T - (remainder+1), T - 1)`;
when `remainder ≤ 1` no fractional value is computed and the slot keeps the
contents `np.empty` left there.  The accumulator always has `n_blocks + 1` slots. -/
theorem aci_fractional_block_slot (a : ℕ → ℚ) (T bd : ℕ) (g : ℚ) :
    (aci_f_band a T bd g).getLast? = some
      (if 1 < remainder T bd then
        (∑ t ∈ Finset.range (remainder T bd - 1),
            |a (t * n_blocks T bd + t) - a (t * n_blocks T bd + t + 1)|) /
          pySliceSum a T (-((remainder T bd : ℤ) + 1)) (-1)
       else g) ∧
    pySliceSum a T (-((remainder T bd : ℤ) + 1)) (-1) =
      ∑ i ∈ Finset.Ico (T - (remainder T bd + 1)) (T - 1), a i ∧
    (aci_f_band a T bd g).length = n_blocks T bd + 1 := by
  refine ⟨?_, ?_, ?_⟩
  · rw [aci_f_band, List.getLast?_append_cons]
    rfl
  · have h1 : -((remainder T bd : ℤ) + 1) < 0 := by omega
    have h2 : (-1 : ℤ) < 0 := by omega
    have hs : (-((remainder T bd : ℤ) + 1) + T).toNat = T - (remainder T bd + 1) := by omega
    have he : ((-1 : ℤ) + T).toNat = T - 1 := by omega
    rw [pySliceSum, if_pos h1, if_pos h2, hs, he]
  · simp [aci_f_band]

/-- C4 counterexample: with `time_delta = block_duration = 1` the derived
`block_delta` is `1 < 2`, yet the computation returns a numeric grid instead of
failing — the source contains no `InvalidConfiguration` validation at all. -/
theorem aci_no_validation_counterexample :
    block_delta 1 1 = 1 ∧
    (calculate_aci 3 (fun _ _ _ => 1) 1 1 (fun _ _ => 0)).isSome = true := by
  refine ⟨block_delta_one_one, ?_⟩
  rw [calculate_aci, if_neg (by rw [block_delta_one_one]; decide)]
  rfl

/-- C4 amended: the code validates nothing eagerly and defines no
`InvalidConfiguration` error; a numeric result exists exactly when the derived
block delta is at least 1 — including the degenerate `block_delta = 1` and
tensors with fewer than `block_delta` time steps — and a result fails to exist
only when `block_delta ≤ 0`. -/
theorem aci_result_iff_block_delta_pos (T : ℕ) (a : ℕ → ℕ → ℕ → ℚ)
    (time_delta block_duration : ℚ) (g : ℕ → ℕ → ℚ) :
    (calculate_aci T a time_delta block_duration g).isSome = true ↔
      1 ≤ block_delta time_delta block_duration := by
  rcases le_or_lt (block_delta time_delta block_duration) 0 with h | h
  · rw [calculate_aci, if_pos h]
    simp
    omega
  · rw [calculate_aci, if_neg (by omega)]
    simp
    omega

/-- C2 code bug: when `remainder ≤ 1` the engine still sums the final,
never-written slot of `np.empty(n_blocks + 1)`.  At the failing input `sampleA`
with `T = 4`, `block_delta = 2` (so `remainder = 0`, no fractional block) and
leftover slot contents 1, the computed cell value is `31/42`, while the sum of
the per-block values over the weighted denominator — the value the claim
specifies — is `5/21`. -/
theorem aci_sum_includes_garbage_slot :
    aciCell sampleA 4 2 1 = 31 / 42 ∧
    (blockD sampleA 2 0 / blockSum sampleA 2 0 + blockD sampleA 2 1 / blockSum sampleA 2 1) /
      ((n_blocks 4 2 : ℚ) + (remainder 4 2 : ℚ) / 2) = 5 / 21 ∧
    (31 : ℚ) / 42 ≠ 5 / 21 := by
  have h1 : n_blocks 4 2 = 2 := by rw [n_blocks_eq]
  have h2 : remainder 4 2 = 0 := by rw [remainder_eq]
  refine ⟨?_, ?_, by norm_num⟩
  · rw [aciCell, aci_f_band, h1, h2]
    norm_num [List.range_succ, blockD, blockSum, sampleA,
      Finset.sum_range_succ, Finset.sum_Ico_eq_sum_range]
  · rw [h1, h2]
    norm_num [blockD, blockSum, sampleA, Finset.sum_range_succ, Finset.sum_Ico_eq_sum_range]

/-- C5 code bug: for an exact two-block partition (`T = 2 * block_delta`,
`remainder = 0`) the final value is not the plain average of the two block
ratios, because the never-written third slot of `np.empty(n_blocks + 1)` is
summed too.  At `sampleB` with `T = 4`, `block_delta = 2` and leftover slot
contents 3 the computed value is `5/2`, while the average of the two block
ratios is 1. -/
theorem aci_two_block_average_spoiled :
    aciCell sampleB 4 2 3 = 5 / 2 ∧
    (blockD sampleB 2 0 / blockSum sampleB 2 0 + blockD sampleB 2 1 / blockSum sampleB 2 1) / 2 = 1 ∧
    (5 : ℚ) / 2 ≠ 1 := by
  have h1 : n_blocks 4 2 = 2 := by rw [n_blocks_eq]
  have h2 : remainder 4 2 = 0 := by rw [remainder_eq]
  refine ⟨?_, ?_, by norm_num⟩
  · rw [aciCell, aci_f_band, h1, h2]
    norm_num [List.range_succ, blockD, blockSum, sampleB,
      Finset.sum_range_succ, Finset.sum_Ico_eq_sum_range]
  · norm_num [blockD, blockSum, sampleB, Finset.sum_range_succ, Finset.sum_Ico_eq_sum_range]

/-- C7 code bug: each output cell depends not only on its input slice
`a[channel, f_band, :]` but also, whenever `remainder ≤ 1`, on the contents
`np.empty` left in the final accumulator slot.  Swapping the two channels of the
sample grid and computing (with leftover contents 5) disagrees with computing on
the original grid (leftover contents 0) and then swapping the output channels:
permutation equivariance fails. -/
theorem aci_permutation_garbage_dependence :
    ((calculate_aci 4 sampleGridSwapped 1 2 (fun _ _ => 5)).getD (fun _ _ => 0)) 0 0 ≠
      ((calculate_aci 4 sampleGrid 1 2 (fun _ _ => 0)).getD (fun _ _ => 0)) 1 0 := by
  have hneg : ¬ block_delta 1 2 ≤ 0 := by rw [block_delta_one_two]; decide
  have hbd : (block_delta 1 2).toNat = 2 := by rw [block_delta_one_two]; rfl
  rw [calculate_aci, calculate_aci, if_neg hneg, if_neg hneg]
  simp only [Option.getD_some, hbd]
  have h1 : n_blocks 4 2 = 2 := by rw [n_blocks_eq]
  have h2 : remainder 4 2 = 0 := by rw [remainder_eq]
  norm_num [aciCell, aci_f_band, h1, h2, List.range_succ, blockD, blockSum,
    sampleGridSwapped, sampleGrid, sampleB,
    Finset.sum_range_succ, Finset.sum_Ico_eq_sum_range]

/-- Result units accepted by `psd` (lines 63 to 64 of analysis.py). -/
inductive PsdUnits
  | decibels
  | watts

/-- Result kinds accepted by `psd` (lines 65 to 66 of analysis.py). -/
inductive PsdKind
  | spectrogram
  | mean
  | both

/-- The tuple `psd` returns (lines 93 to 104 of analysis.py): frequency axis,
time axis, and whichever of the spectrogram and mean arrays the tuple carries. -/
structure PsdReturn where
  f : List ℝ
  t : List ℝ
  spectro : Option (ℕ → ℕ → ℕ → ℝ)
  mean : Option (ℕ → ℕ → ℝ)

noncomputable section

/-- Lines 92, 94 and 96 of analysis.py: the decibel conversion applied to each
entry, `10 * np.log10(value / pressure_reference**2)`. -/
def psdToDecibels (pressure_reference p : ℝ) : ℝ :=
  10 * Real.logb 10 (p / pressure_reference ^ 2)

/-- Line 138 of analysis.py: the `sel` estimator's conversion of decibels back
to watts, `a = 10**(a / 10)`, applied to each entry. -/
def selToWatts (x : ℝ) : ℝ := (10 : ℝ) ^ (x / 10)

/-- Lines 14 to 23 of utilities.py: `sum_decibels`, computing
`10 * np.log10(np.sum(10**(x / 10)))`. -/
def sum_decibels (x : List ℝ) : ℝ :=
  10 * Real.logb 10 ((x.map fun v => (10 : ℝ) ^ (v / 10)).sum)

/-- Line 87 of analysis.py: `psd_mean = psd.sum(axis = 2) / psd.shape[2]`. -/
def psd_mean (p : ℕ → ℕ → ℕ → ℝ) (nWindows : ℕ) : ℕ → ℕ → ℝ :=
  fun c b => (∑ w ∈ Finset.range nWindows, p c b w) / nWindows

/-- Lines 86 to 104 of analysis.py: the return dispatch of `psd` over valid
`units` and `kind`.  In the decibels/mean arm (lines 91 to 92) the converted
mean tuple expression is evaluated as a bare statement without `return`, so the
function falls off the end and yields Python's `None`, modelled as `none`;
every other arm returns a tuple. -/
def psdReturn (units : PsdUnits) (kind : PsdKind) (f t : List ℝ)
    (p : ℕ → ℕ → ℕ → ℝ) (nWindows : ℕ) (pressure_reference : ℝ) : Option PsdReturn :=
  match units, kind with
  | .decibels, .mean => none
  | .decibels, .both => some ⟨f, t,
      some fun c b w => psdToDecibels pressure_reference (p c b w),
      some fun c b => psdToDecibels pressure_reference (psd_mean p nWindows c b)⟩
  | .decibels, .spectrogram => some ⟨f, t,
      some fun c b w => psdToDecibels pressure_reference (p c b w), none⟩
  | .watts, .mean => some ⟨f, t, none, some (psd_mean p nWindows)⟩
  | .watts, .both => some ⟨f, t, some p, some (psd_mean p nWindows)⟩
  | .watts, .spectrogram => some ⟨f, t, some p, none⟩

end

/-- C8 counterexample: converting 100 watts to decibels with the psd conversion
(reference 20) and back with the sel conversion yields exactly 1/4 watt, not
approximately 100: the round trip does not recover the original value. -/
theorem sel_roundtrip_counterexample :
    selToWatts (psdToDecibels 20 100) = 1 / 4 ∧ (1 / 4 : ℝ) ≠ 100 := by
  constructor
  · simp only [selToWatts, psdToDecibels]
    have h1 : (100 : ℝ) / 20 ^ 2 = 1 / 4 := by norm_num
    rw [h1]
    have h2 : 10 * Real.logb 10 ((1 : ℝ) / 4) / 10 = Real.logb 10 ((1 : ℝ) / 4) := by ring
    rw [h2]
    exact Real.rpow_logb (by norm_num) (by norm_num) (by norm_num)
  · norm_num

/-- C8 amended: the decibel conversion divides by the squared pressure reference
while the watt conversion multiplies nothing back, so the round trip recovers
`p / pressure_reference ^ 2` rather than `p`; with the default reference 20,
100 watts comes back as 1/4 watt, and the original value is recovered only when
the squared reference is 1. -/
theorem sel_roundtrip_recovers_ref_scaled (p ref : ℝ) (hp : 0 < p) (href : ref ≠ 0) :
    selToWatts (psdToDecibels ref p) = p / ref ^ 2 := by
  have hsq : 0 < ref ^ 2 := lt_of_le_of_ne (sq_nonneg ref) (Ne.symm (pow_ne_zero 2 href))
  simp only [selToWatts, psdToDecibels]
  have h2 : 10 * Real.logb 10 (p / ref ^ 2) / 10 = Real.logb 10 (p / ref ^ 2) := by ring
  rw [h2]
  exact Real.rpow_logb (by norm_num) (by norm_num) (div_pos hp hsq)

/-- Witness for `sel_roundtrip_recovers_ref_scaled` at 100 watts with reference 20. -/
theorem sel_roundtrip_recovers_ref_scaled_witness :
    (0 : ℝ) < 100 ∧ (20 : ℝ) ≠ 0 ∧ selToWatts (psdToDecibels 20 100) = 100 / 20 ^ 2 :=
  ⟨by norm_num, by norm_num,
   sel_roundtrip_recovers_ref_scaled 100 20 (by norm_num) (by norm_num)⟩

/-- C9: `sum_decibels` applied to the two-element input `[0, 0]` (each element
representing 1 watt) returns exactly `10 * log10 2`, about 3.0103 decibels. -/
theorem sum_decibels_two_zeros : sum_decibels [0, 0] = 10 * Real.logb 10 2 := by
  have h0 : ((10 : ℝ) ^ ((0 : ℝ) / 10)) = 1 := by
    norm_num
  simp [sum_decibels, h0]
  norm_num

/-- C10: for every input, `psd` called with units decibels and kind mean returns
`None` — line 92 evaluates the decibel-converted mean tuple without a `return`
statement — while every other valid units/kind combination returns a tuple
carrying the frequency axis, time axis and result array(s). -/
theorem psd_mean_decibels_none_iff (u : PsdUnits) (k : PsdKind) (f t : List ℝ)
    (p : ℕ → ℕ → ℕ → ℝ) (nWindows : ℕ) (pressure_reference : ℝ) :
    psdReturn u k f t p nWindows pressure_reference = none ↔
      u = PsdUnits.decibels ∧ k = PsdKind.mean := by
  cases u <;> cases k <;> simp [psdReturn]

end Nacoustik
